import Mathlib

/-!
# pgweb: session registry, idle reaper and connection establisher

A shallow embedding of `pkg/api/session_manager.go`, `pkg/metrics/metrics.go`
(the sessions gauge), `testClient` of `pkg/cli/cli.go` and `dbCheckMiddleware`
of `pkg/api/middleware.go`.

Modelling conventions.

* A `*client.Client` is a pointer: `none` is Go's `nil`, `some a` the address `a`.
* The Go map `map[string]*client.Client` is an association list with unique
  keys (`AList`). Go leaves the order of `range` unspecified; the model ranges
  in the order of the entry list, and theorems quantify over every such list.
* The methods `Close` and `LastQueryTime` of `client.Client` are outside the
  source tree. A call of `Close` is recorded in a log; `LastQueryTime` is a
  parameter of the operations that call it.
* The mutex only serialises the calls; every operation below is one critical
  section, run sequentially. Logging calls have no effect on the modelled state.
-/

namespace Pgweb

/-! ## Data model -/

/-- A `*client.Client` pointer value; `none` is `nil`. -/
abbrev ClientPtr := Option Nat

/-- A `time.Time` instant, as nanoseconds on one time line. -/
abbrev Time := Int

/-- A `time.Duration`: a signed count of nanoseconds. -/
abbrev Duration := Int

/-- The Go map `map[string]*client.Client`. -/
abbrev SessionMap := AList (fun _ : String => ClientPtr)

/-- The struct `SessionManager` (the logger and the mutex carry no data of the model). -/
structure SessionManager where
  sessions : SessionMap
  idleTimeout : Duration

/-- The registry together with the two effects its operations have outside the
struct: the argument of the last `metrics.SetSessionsCount` call (`none` while
it was never called) and the log of `Close` calls, oldest first. -/
structure World where
  mgr : SessionManager
  sessionsGauge : Option Nat
  closeLog : List ClientPtr

/-! ## metrics.go -/

/-- `metrics.SetSessionsCount(val)`: sets the sessions gauge. -/
def SetSessionsCount (w : World) (val : Nat) : World :=
  { w with sessionsGauge := some val }

/-! ## session_manager.go -/

/-- `NewSessionManager`: an empty map, zero idle timeout. -/
def NewSessionManager : SessionManager :=
  { sessions := ∅, idleTimeout := 0 }

/-- A fresh process: new manager, gauge never set, nothing closed. -/
def initWorld : World :=
  { mgr := NewSessionManager, sessionsGauge := none, closeLog := [] }

/-- `SetIdleTimeout`. -/
def SetIdleTimeout (w : World) (timeout : Duration) : World :=
  { w with mgr := { w.mgr with idleTimeout := timeout } }

/-- `conn.Close()`: the call is recorded. -/
def Close (w : World) (conn : ClientPtr) : World :=
  { w with closeLog := w.closeLog ++ [conn] }

/-- The two-valued map read `conn, ok := m.sessions[id]`. -/
def lookup (w : World) (id : String) : Option ClientPtr :=
  w.mgr.sessions.lookup id

/-- `IDs`: the keys, in range order. -/
def IDs (w : World) : List String :=
  w.mgr.sessions.entries.foldl (fun ids e => ids ++ [e.1]) []

/-- `Sessions`: a new map filled by ranging over the registry. -/
def Sessions (w : World) : SessionMap :=
  w.mgr.sessions.entries.foldl (fun sessions e => sessions.insert e.1 e.2) ∅

/-- `Get`: `m.sessions[id]`, which is `nil` for a missing key. -/
def Get (w : World) (id : String) : ClientPtr :=
  match w.mgr.sessions.lookup id with
  | some conn => conn
  | none => none

/-- `Len`: `len(m.sessions)`. -/
def Len (w : World) : Nat :=
  w.mgr.sessions.entries.length

/-- `Add`: `m.sessions[id] = conn`, then the gauge is set to the map size. -/
def Add (w : World) (id : String) (conn : ClientPtr) : World :=
  let w1 : World := { w with mgr := { w.mgr with sessions := w.mgr.sessions.insert id conn } }
  SetSessionsCount w1 (Len w1)

/-- `Remove`: closes and deletes the entry when there is one, sets the gauge,
returns `ok`. -/
def Remove (w : World) (id : String) : Bool × World :=
  match w.mgr.sessions.lookup id with
  | some conn =>
      let w1 := Close w conn
      let w2 : World := { w1 with mgr := { w1.mgr with sessions := w1.mgr.sessions.erase id } }
      (true, SetSessionsCount w2 (Len w2))
  | none => (false, SetSessionsCount w (Len w))

/-- The largest `time.Duration`, `1<<63 - 1`. -/
def maxDuration : Duration := 2 ^ 63 - 1

/-- The smallest `time.Duration`, `-1 << 63`. -/
def minDuration : Duration := -(2 ^ 63)

/-- The library call `t.Sub(u)`: the duration `t - u`, replaced by the largest
(smallest) duration when it lies above (below) the range of `time.Duration`. -/
def Sub (t u : Time) : Duration :=
  if t - u > maxDuration then maxDuration
  else if t - u < minDuration then minDuration
  else t - u

/-- `staleSessions`: ranges over the map and appends the id of every entry whose
handle has `now.Sub(conn.LastQueryTime()) > m.idleTimeout`. `now` is the value of
`time.Now()`. -/
def staleSessions (w : World) (now : Time) (LastQueryTime : ClientPtr → Time) :
    List String :=
  w.mgr.sessions.entries.foldl
    (fun ids e =>
      if Sub now (LastQueryTime e.2) > w.mgr.idleTimeout then ids ++ [e.1] else ids)
    []

/-- One pass of the body of the `for` loop of `Cleanup`; the state is the counter
`removed` and the world. -/
def cleanupStep (acc : Nat × World) (id : String) : Nat × World :=
  let r := Remove acc.2 id
  (if r.1 then acc.1 + 1 else acc.1, r.2)

/-- `Cleanup`: returns 0 at once when the idle timeout is zero; otherwise calls
`Remove` on every id of `staleSessions()` and returns the number of calls that
returned true. -/
def Cleanup (w : World) (now : Time) (LastQueryTime : ClientPtr → Time) : Nat × World :=
  if w.mgr.idleTimeout = 0 then (0, w)
  else (staleSessions w now LastQueryTime).foldl cleanupStep (0, w)

/-- One call on the registry, as a caller issues it. A `Cleanup` comes with the
clock reading and the last query times it finds. -/
inductive Call where
  | Add (id : String) (conn : ClientPtr)
  | Remove (id : String)
  | Get (id : String)
  | IDs
  | Sessions
  | Len
  | Cleanup (now : Time) (LastQueryTime : ClientPtr → Time)

/-- The world after one call (the read-only calls leave it as it is). -/
def Call.exec (w : World) : Call → World
  | .Add id conn => Pgweb.Add w id conn
  | .Remove id => (Pgweb.Remove w id).2
  | .Get _ => w
  | .IDs => w
  | .Sessions => w
  | .Len => w
  | .Cleanup now lqt => (Pgweb.Cleanup w now lqt).2

/-- The world after a sequence of calls, issued left to right. -/
def runCalls (w : World) (calls : List Call) : World :=
  calls.foldl Call.exec w

/-- The call may change the entry of `id`: an `Add` or a `Remove` on `id`, or a
`Cleanup`. -/
def Call.writes (id : String) : Call → Bool
  | .Add id' _ => id' == id
  | .Remove id' => id' == id
  | .Cleanup _ _ => true
  | _ => false

/-- The call is an `Add` or a `Remove`. -/
def Call.isAddOrRemove : Call → Bool
  | .Add _ _ => true
  | .Remove _ => true
  | _ => false

/-- The handles passed to the `Add` calls of a sequence, in call order. -/
def inserted : List Call → List ClientPtr
  | [] => []
  | .Add _ conn :: cs => conn :: inserted cs
  | _ :: cs => inserted cs

/-- The handles whose entry is overwritten by an `Add` on the same id while the
sequence of calls runs from the world `w`. -/
def overwritten (w : World) : List Call → List ClientPtr
  | [] => []
  | .Add id conn :: cs => (lookup w id).toList ++ overwritten (Pgweb.Add w id conn) cs
  | c :: cs => overwritten (c.exec w) cs

/-- The handles held by the entries of the map, in range order. -/
def storedHandles (w : World) : List ClientPtr :=
  w.mgr.sessions.entries.map (fun e => e.2)

/-- The number of times `h` is held by an entry or was closed. -/
def live (w : World) (h : ClientPtr) : Nat :=
  (storedHandles w).count h + w.closeLog.count h


/-! ## cli.go: testClient -/

/-- The sentinel errors of package `client` that `testClient` looks for. -/
inductive Sentinel where
  | ErrConnectionRefused
  | ErrAuthFailed
  | ErrDatabaseNotExist
  deriving DecidableEq

/-- A non-nil `error` value: its message and the sentinels found in its chain. -/
structure Error where
  msg : String
  chain : List Sentinel
  deriving DecidableEq

/-- The library call `errors.Is(err, target)` for a sentinel `target`. -/
def errorsIs (err : Error) (target : Sentinel) : Bool :=
  decide (target ∈ err.chain)

/-- The two fields of `command.Opts` that `testClient` reads. -/
structure Options where
  DbName : String
  URL : String

/-- The variables of the loop of `testClient` and what it has done so far:
the remaining `retryCount`, the number of `cl.Test()` calls made, and the
durations waited on `time.After`, oldest first. -/
structure LoopState where
  retryCount : Int
  tests : Nat
  waits : List Duration
  deriving DecidableEq

/-- What `testClient` returns, with the number of `cl.Test()` calls it made and
the waits it went through. -/
structure Outcome where
  abort : Bool
  err : Option Error
  tests : Nat
  waits : List Duration
  deriving DecidableEq

/-- One pass of the body of the `for` loop of `testClient`. `Test k` is the
result of the call number `k` of `cl.Test()`, counted from 0, `none` being the
nil error. The result is `some (abort, err)` when the pass returns, `none` when
it ends in `continue`; the message printed before a retry is not modelled. -/
def iteration (usingDefaultDB : Bool) (retryDelay : Duration)
    (Test : Nat → Option Error) (st : LoopState) : Option (Bool × Option Error) × LoopState :=
  let st1 : LoopState := { st with tests := st.tests + 1 }
  match Test st.tests with
  | none => (some (false, none), st1)
  | some err =>
      if usingDefaultDB &&
          (errorsIs err .ErrConnectionRefused || errorsIs err .ErrAuthFailed ||
            errorsIs err .ErrDatabaseNotExist) then
        (some (false, some err), st1)
      else if errorsIs err .ErrConnectionRefused && decide (st.retryCount > 0) then
        (none, { st1 with retryCount := st.retryCount - 1, waits := st.waits ++ [retryDelay] })
      else
        (some (true, some err), st1)

/-- The `for` loop of `testClient`, run for at most `fuel` passes; `none` when the
fuel runs out before a pass returns. -/
def testClientLoop (usingDefaultDB : Bool) (retryDelay : Duration)
    (Test : Nat → Option Error) : Nat → LoopState → Option Outcome
  | 0, _ => none
  | fuel + 1, st =>
      match iteration usingDefaultDB retryDelay Test st with
      | (some r, st1) => some ⟨r.1, r.2, st1.tests, st1.waits⟩
      | (none, st1) => testClientLoop usingDefaultDB retryDelay Test fuel st1

/-- The local `usingDefaultDB` of `testClient`:
`command.Opts.DbName == "" && command.Opts.URL == ""`. -/
def usingDefaultDB (opts : Options) : Bool :=
  opts.DbName == "" && opts.URL == ""

/-- `testClient(cl, retryCount, retryDelay)`. Every pass that continues lowers a
positive `retryCount` by one, so `retryCount + 1` passes (one pass when
`retryCount` is negative) are enough fuel. -/
def testClient (opts : Options) (Test : Nat → Option Error) (retryCount : Int)
    (retryDelay : Duration) : Option Outcome :=
  testClientLoop (usingDefaultDB opts) retryDelay Test (retryCount.toNat + 1)
    ⟨retryCount, 0, []⟩

/-! ## Snapshots returned by IDs and Sessions -/

/-- An object of the Go heap that the registry code makes: a map, or the
elements of a slice. -/
inductive Obj where
  | map (m : SessionMap)
  | slice (xs : List String)

/-- The registry with its map held by reference. `heap` lists the objects by
address (position in the list); the field `sessions` of the manager is the
address of its map, as a Go map variable is a reference to the map object. The
other components are those of `World`. -/
structure Mem where
  heap : List Obj
  sessions : Nat
  idleTimeout : Duration
  sessionsGauge : Option Nat
  closeLog : List ClientPtr

/-- The map object the field `m.sessions` refers to (a nil map reads as empty). -/
def Mem.registry (mem : Mem) : SessionMap :=
  match mem.heap[mem.sessions]? with
  | some (.map m) => m
  | _ => ∅

/-- The registry as a `World`: the map is read through the reference. -/
def Mem.world (mem : Mem) : World :=
  { mgr := { sessions := mem.registry, idleTimeout := mem.idleTimeout },
    sessionsGauge := mem.sessionsGauge, closeLog := mem.closeLog }

/-- The effect of a call that mutates the registry: the map object at the
address `m.sessions` is overwritten in place, the other components are set. -/
def Mem.write (mem : Mem) (w : World) : Mem :=
  { heap := mem.heap.set mem.sessions (.map w.mgr.sessions),
    sessions := mem.sessions,
    idleTimeout := w.mgr.idleTimeout,
    sessionsGauge := w.sessionsGauge,
    closeLog := w.closeLog }

/-- Allocation: the new object gets the next free address, which is returned. -/
def Mem.alloc (mem : Mem) (o : Obj) : Nat × Mem :=
  (mem.heap.length, { mem with heap := mem.heap ++ [o] })

/-- The assignment `sessions[k] = v` on the map object at `addr`. -/
def Mem.mapInsert (mem : Mem) (addr : Nat) (k : String) (v : ClientPtr) : Mem :=
  match mem.heap[addr]? with
  | some (.map m) => { mem with heap := mem.heap.set addr (.map (m.insert k v)) }
  | _ => mem

/-- `IDs()` as a call: the slice built by `ids := []string{}` and the appends is
a new object; its address is returned. -/
def Mem.IDs (mem : Mem) : Nat × Mem :=
  mem.alloc (.slice (Pgweb.IDs mem.world))

/-- `Sessions()` as a call: `make` allocates a new map object, the loop assigns
every entry of the registry into it, and its address is returned. -/
def Mem.Sessions (mem : Mem) : Nat × Mem :=
  let r := mem.alloc (.map ∅)
  (r.1, mem.registry.entries.foldl (fun acc e => acc.mapInsert r.1 e.1 e.2) r.2)

/-- The memory after one call: `IDs` and `Sessions` allocate their result, `Add`,
`Remove` and `Cleanup` mutate the registry in place, `Get` and `Len` change
nothing. -/
def Mem.exec (mem : Mem) : Call → Mem
  | .IDs => (Mem.IDs mem).2
  | .Sessions => (Mem.Sessions mem).2
  | .Get _ => mem
  | .Len => mem
  | c => mem.write (c.exec mem.world)

/-- The memory after a sequence of calls, issued left to right. -/
def Mem.run (mem : Mem) (calls : List Call) : Mem :=
  calls.foldl Mem.exec mem

/-- The memory after `NewSessionManager`: the empty map of the manager is the
only object. -/
def NewMem : Mem :=
  { heap := [.map ∅], sessions := 0, idleTimeout := 0, sessionsGauge := none, closeLog := [] }

/-! ## middleware.go: dbCheckMiddleware -/

/-- The two fields of `command.Opts` that `dbCheckMiddleware` reads. -/
structure ServerOptions where
  Prefix : String
  Sessions : Bool

/-- The request: `c.Request.URL.Path` and the rest of the request, from which
`getSessionId` reads the session id. -/
structure Request where
  Path : String
  Headers : List (String × String)

/-- The two error values the middleware passes to `badRequest`. -/
inductive GateError where
  | errNotConnected
  | errSessionRequired
  deriving DecidableEq

/-- How the middleware ends: `c.Next()` or `badRequest(c, err)`. -/
inductive GateResult where
  | Next
  | BadRequest (err : GateError)
  deriving DecidableEq

/-- The handler returned by `dbCheckMiddleware()`. The table `allowedPaths`
and the helper `getSessionId` are outside the source tree and are parameters;
`DbClient` and `DbSessions` are the package variables. `strings.Replace(s, old,
"", -1)` is `String.replace`. The second component is the registry after the
handler ran. -/
def dbCheckMiddleware (opts : ServerOptions) (allowedPaths : String → Bool)
    (getSessionId : Request → String) (DbClient : ClientPtr) (DbSessions : World)
    (req : Request) : GateResult × World :=
  let path := req.Path.replace opts.Prefix ""
  if allowedPaths path then (.Next, DbSessions)
  else if !opts.Sessions then
    if DbClient = none then (.BadRequest .errNotConnected, DbSessions)
    else (.Next, DbSessions)
  else
    let sid := getSessionId req
    if sid = "" then (.BadRequest .errSessionRequired, DbSessions)
    else
      let conn := Get DbSessions sid
      if conn = none then (.BadRequest .errNotConnected, DbSessions)
      else (.Next, DbSessions)

/-! ## Lemmas on the registry -/

theorem Get_Add_self (w : World) (id : String) (conn : ClientPtr) :
    Get (Add w id conn) id = conn := by
  simp [Get, Add, SetSessionsCount]

theorem lookup_Add_ne (w : World) {id id' : String} (conn : ClientPtr) (h : id' ≠ id) :
    lookup (Add w id conn) id' = lookup w id' := by
  simp [lookup, Add, SetSessionsCount, AList.lookup_insert_ne h]

theorem lookup_Remove_ne (w : World) {id id' : String} (h : id' ≠ id) :
    lookup (Remove w id).2 id' = lookup w id' := by
  unfold Remove
  cases hl : w.mgr.sessions.lookup id <;>
    simp [lookup, SetSessionsCount, Close, AList.lookup_erase_ne h]

theorem Get_eq_of_lookup {w w' : World} {id : String} (h : lookup w' id = lookup w id) :
    Get w' id = Get w id := by
  unfold lookup at h
  simp [Get, h]

theorem lookup_exec_of_not_writes (w : World) (id : String) (c : Call)
    (h : c.writes id = false) : lookup (c.exec w) id = lookup w id := by
  cases c with
  | Add id' conn =>
      have hne : id ≠ id' := by
        intro e; simp [Call.writes, e] at h
      exact lookup_Add_ne w conn hne
  | Remove id' =>
      have hne : id ≠ id' := by
        intro e; simp [Call.writes, e] at h
      exact lookup_Remove_ne w hne
  | Get _ => rfl
  | IDs => rfl
  | Sessions => rfl
  | Len => rfl
  | Cleanup now lqt => simp [Call.writes] at h

theorem lookup_runCalls_of_not_writes (id : String) (calls : List Call) :
    ∀ w : World, (∀ c ∈ calls, c.writes id = false) →
      lookup (runCalls w calls) id = lookup w id := by
  induction calls with
  | nil => intro w _; rfl
  | cons c cs ih =>
      intro w h
      have h1 := ih (c.exec w) (fun c' hc' => h c' (List.mem_cons_of_mem _ hc'))
      have h2 := lookup_exec_of_not_writes w id c (h c (List.mem_cons_self _ _))
      simpa [runCalls, h2] using h1

theorem Len_eq_keys_length (w : World) : Len w = w.mgr.sessions.keys.length := by
  simp [Len, AList.keys, List.keys]

theorem Len_Remove_of_lookup {w : World} {id : String} {conn : ClientPtr}
    (h : lookup w id = some conn) : Len (Remove w id).2 + 1 = Len w := by
  have hmem : id ∈ w.mgr.sessions.keys := by
    rw [← AList.mem_keys, ← AList.lookup_isSome]
    unfold lookup at h
    simp [h]
  have hpos : 0 < w.mgr.sessions.keys.length := List.length_pos_of_mem hmem
  unfold lookup at h
  rw [Len_eq_keys_length, Len_eq_keys_length]
  simp only [Remove, h, SetSessionsCount, Close, AList.keys_erase]
  rw [List.length_erase_of_mem hmem]
  omega

/-! ## Lemmas on the sweep -/

theorem Sub_gt_iff (t u : Time) (T : Duration) (hlo : minDuration ≤ T)
    (hhi : T < maxDuration) : Sub t u > T ↔ t - u > T := by
  unfold Sub
  unfold minDuration at hlo
  unfold maxDuration at hhi
  simp only [maxDuration, minDuration]
  split_ifs with h1 h2
  · constructor
    · intro _; exact lt_trans hhi h1
    · intro _; exact hhi
  · constructor
    · intro h; exact absurd (lt_of_le_of_lt hlo h) (lt_irrefl _)
    · intro h; exact absurd (lt_trans (lt_of_le_of_lt hlo h) h2) (lt_irrefl _)
  · exact Iff.rfl

theorem lookup_Remove_self (w : World) (id : String) : lookup (Remove w id).2 id = none := by
  unfold Remove
  cases hl : w.mgr.sessions.lookup id <;> simp [lookup, SetSessionsCount, Close, hl]

theorem closeLog_Remove (w : World) (id : String) :
    (Remove w id).2.closeLog = w.closeLog ++ (lookup w id).toList := by
  unfold Remove lookup
  cases hl : w.mgr.sessions.lookup id <;> simp [SetSessionsCount, Close]

theorem gauge_Remove (w : World) (id : String) :
    (Remove w id).2.sessionsGauge = some (Len (Remove w id).2) := by
  unfold Remove
  cases hl : w.mgr.sessions.lookup id <;> simp [SetSessionsCount, Len]

theorem gauge_Add (w : World) (id : String) (conn : ClientPtr) :
    (Add w id conn).sessionsGauge = some (Len (Add w id conn)) := by
  simp [Add, SetSessionsCount, Len]

theorem idleTimeout_Remove (w : World) (id : String) :
    (Remove w id).2.mgr.idleTimeout = w.mgr.idleTimeout := by
  unfold Remove
  cases hl : w.mgr.sessions.lookup id <;> simp [SetSessionsCount, Close]

theorem staleFold_eq (now : Time) (lqt : ClientPtr → Time) (T : Duration)
    (l : List (Sigma fun _ : String => ClientPtr)) :
    ∀ init : List String,
      l.foldl (fun ids e => if Sub now (lqt e.2) > T then ids ++ [e.1] else ids) init
        = init ++ (l.filter (fun e => decide (Sub now (lqt e.2) > T))).map (fun e => e.1) := by
  induction l with
  | nil => intro init; simp
  | cons e t ih =>
      intro init
      by_cases hs : Sub now (lqt e.2) > T
      · simp [List.foldl_cons, hs, ih]
      · simp [List.foldl_cons, hs, ih]

theorem staleSessions_eq (w : World) (now : Time) (lqt : ClientPtr → Time) :
    staleSessions w now lqt
      = (w.mgr.sessions.entries.filter
          (fun e => decide (Sub now (lqt e.2) > w.mgr.idleTimeout))).map (fun e => e.1) := by
  unfold staleSessions
  rw [staleFold_eq]
  simp

theorem mem_staleSessions (w : World) (now : Time) (lqt : ClientPtr → Time) (id : String) :
    id ∈ staleSessions w now lqt ↔
      ∃ h, lookup w id = some h ∧ Sub now (lqt h) > w.mgr.idleTimeout := by
  rw [staleSessions_eq]
  simp only [List.mem_map, List.mem_filter, decide_eq_true_eq, lookup]
  constructor
  · rintro ⟨⟨k, h⟩, ⟨hmem, hst⟩, rfl⟩
    exact ⟨h, AList.mem_lookup_iff.2 hmem, hst⟩
  · rintro ⟨h, hl, hst⟩
    exact ⟨⟨id, h⟩, ⟨AList.mem_lookup_iff.1 hl, hst⟩, rfl⟩

theorem staleSessions_nodup (w : World) (now : Time) (lqt : ClientPtr → Time) :
    (staleSessions w now lqt).Nodup := by
  rw [staleSessions_eq]
  have hsub : ((w.mgr.sessions.entries.filter
      (fun e => decide (Sub now (lqt e.2) > w.mgr.idleTimeout))).map (fun e => e.1)).Sublist
      w.mgr.sessions.keys := by
    have := (List.filter_sublist (p := fun e => decide (Sub now (lqt e.2) > w.mgr.idleTimeout))
      w.mgr.sessions.entries).map (fun e => e.1)
    simpa [AList.keys, List.keys] using this
  exact hsub.nodup w.mgr.sessions.keys_nodup

theorem lookup_cleanupLoop (ids : List String) :
    ∀ (acc : Nat × World) (id : String),
      lookup (ids.foldl cleanupStep acc).2 id
        = if id ∈ ids then none else lookup acc.2 id := by
  induction ids with
  | nil => intro acc id; simp
  | cons a t ih =>
      intro acc id
      rw [List.foldl_cons, ih]
      by_cases ht : id ∈ t
      · simp [ht]
      · by_cases ha : id = a
        · subst ha
          simp [cleanupStep, lookup_Remove_self]
        · simp [ht, ha, cleanupStep, lookup_Remove_ne acc.2 ha]

theorem closeLog_cleanupLoop (ids : List String) :
    ∀ acc : Nat × World, ids.Nodup →
      (ids.foldl cleanupStep acc).2.closeLog
        = acc.2.closeLog ++ ids.filterMap (lookup acc.2) := by
  induction ids with
  | nil => intro acc _; simp
  | cons a t ih =>
      intro acc hnd
      have hnd' := List.nodup_cons.1 hnd
      rw [List.foldl_cons, ih _ hnd'.2]
      have hsame : t.filterMap (lookup (cleanupStep acc a).2) = t.filterMap (lookup acc.2) := by
        apply List.filterMap_congr
        intro id hid
        have hne : id ≠ a := fun e => hnd'.1 (e ▸ hid)
        simp [cleanupStep, lookup_Remove_ne acc.2 hne]
      rw [hsame]
      cases hl : lookup acc.2 a <;>
        simp [cleanupStep, closeLog_Remove, hl, List.filterMap_cons]

theorem gauge_cleanupLoop (ids : List String) :
    ∀ acc : Nat × World, acc.2.sessionsGauge = some (Len acc.2) →
      (ids.foldl cleanupStep acc).2.sessionsGauge = some (Len (ids.foldl cleanupStep acc).2) := by
  induction ids with
  | nil => intro acc h; simpa using h
  | cons a t ih =>
      intro acc _
      rw [List.foldl_cons]
      exact ih _ (by simp [cleanupStep, gauge_Remove])

/-! ## Lemmas on the bookkeeping of handles -/

theorem count_kerase_add_dlookup (h : ClientPtr) (a : String) :
    ∀ l : List (Sigma fun _ : String => ClientPtr),
      (List.map (fun e => e.2) (List.kerase a l)).count h
          + (List.dlookup a l).toList.count h
        = (List.map (fun e => e.2) l).count h := by
  intro l
  induction l with
  | nil => simp
  | cons e t ih =>
      obtain ⟨k, v⟩ := e
      by_cases hk : a = k
      · subst hk
        rw [@List.kerase_cons_eq _ _ _ a ⟨a, v⟩ t rfl, List.dlookup_cons_eq]
        simp [List.count_cons]
      · rw [@List.kerase_cons_ne _ _ _ a ⟨k, v⟩ t hk, List.dlookup_cons_ne t ⟨k, v⟩ hk]
        simp only [List.map_cons, List.count_cons]
        omega

theorem live_Remove (w : World) (id : String) (h : ClientPtr) :
    live (Remove w id).2 h = live w h := by
  have hk := count_kerase_add_dlookup h id w.mgr.sessions.entries
  have hlog := closeLog_Remove w id
  unfold live
  rw [hlog, List.count_append]
  have hst : storedHandles (Remove w id).2
      = List.map (fun e => e.2) (List.kerase id w.mgr.sessions.entries) := by
    unfold Remove
    cases hl : w.mgr.sessions.lookup id with
    | none =>
        have : id ∉ w.mgr.sessions.entries.keys := by
          have := AList.lookup_eq_none.1 hl
          simpa [AList.mem_keys, AList.keys] using this
        simp [storedHandles, SetSessionsCount, List.kerase_of_not_mem_keys this]
    | some conn => simp [storedHandles, SetSessionsCount, Close, AList.erase]
  rw [hst]
  unfold storedHandles lookup AList.lookup
  omega

theorem live_Add (w : World) (id : String) (conn h : ClientPtr) :
    live (Add w id conn) h + (lookup w id).toList.count h
      = live w h + [conn].count h := by
  have hk := count_kerase_add_dlookup h id w.mgr.sessions.entries
  unfold live storedHandles lookup AList.lookup
  simp only [Add, SetSessionsCount, AList.insert_entries, List.map_cons, List.count_cons,
    List.count_nil]
  omega

theorem live_cleanupLoop (ids : List String) (h : ClientPtr) :
    ∀ acc : Nat × World, live (ids.foldl cleanupStep acc).2 h = live acc.2 h := by
  induction ids with
  | nil => intro acc; rfl
  | cons a t ih =>
      intro acc
      rw [List.foldl_cons, ih]
      simp [cleanupStep, live_Remove]

theorem live_Cleanup (w : World) (now : Time) (lqt : ClientPtr → Time) (h : ClientPtr) :
    live (Cleanup w now lqt).2 h = live w h := by
  unfold Cleanup
  by_cases hT : w.mgr.idleTimeout = 0
  · simp [hT]
  · simp only [hT, if_false]
    exact live_cleanupLoop _ h (0, w)

theorem live_runCalls (h : ClientPtr) (calls : List Call) :
    ∀ w : World,
      live (runCalls w calls) h + (overwritten w calls).count h
        = live w h + (inserted calls).count h := by
  induction calls with
  | nil => intro w; simp [runCalls, overwritten, inserted]
  | cons c cs ih =>
      intro w
      have hrun : runCalls w (c :: cs) = runCalls (c.exec w) cs := rfl
      rw [hrun]
      have h1 := ih (c.exec w)
      cases c with
      | Add id conn =>
          have h2 := live_Add w id conn h
          simp only [overwritten, inserted, List.count_append, List.count_cons,
            List.count_nil, Call.exec] at *
          omega
      | Remove id =>
          have h2 := live_Remove w id h
          simp only [overwritten, inserted, Call.exec] at *
          omega
      | Cleanup now lqt =>
          have h2 := live_Cleanup w now lqt h
          simp only [overwritten, inserted, Call.exec] at *
          omega
      | Get _ => simpa [overwritten, inserted, Call.exec] using h1
      | IDs => simpa [overwritten, inserted, Call.exec] using h1
      | Sessions => simpa [overwritten, inserted, Call.exec] using h1
      | Len => simpa [overwritten, inserted, Call.exec] using h1

theorem count_le_one_of_nodup {l : List ClientPtr} (hl : l.Nodup) (a : ClientPtr) :
    l.count a ≤ 1 := by
  induction l with
  | nil => simp
  | cons x t ih =>
      have hx := List.nodup_cons.1 hl
      have ht := ih hx.2
      rw [List.count_cons]
      by_cases hxa : x = a
      · subst hxa
        have h0 := List.count_eq_zero_of_not_mem hx.1
        simp [h0]
      · simp [hxa, ht]

theorem count_eq_one_of_nodup_mem {l : List ClientPtr} (hl : l.Nodup) {a : ClientPtr}
    (ha : a ∈ l) : l.count a = 1 := by
  have h1 := count_le_one_of_nodup hl a
  have h2 := List.count_pos_iff.2 ha
  omega

theorem gauge_exec (w : World) (c : Call) (h : w.sessionsGauge = some (Len w)) :
    (c.exec w).sessionsGauge = some (Len (c.exec w)) := by
  cases c with
  | Add id conn => exact gauge_Add w id conn
  | Remove id => exact gauge_Remove w id
  | Cleanup now lqt =>
      simp only [Call.exec, Cleanup]
      by_cases hT : w.mgr.idleTimeout = 0
      · simpa [hT] using h
      · simp only [hT, if_false]
        exact gauge_cleanupLoop _ (0, w) h
  | Get _ => exact h
  | IDs => exact h
  | Sessions => exact h
  | Len => exact h

theorem gauge_runCalls (calls : List Call) :
    ∀ w : World, w.sessionsGauge = some (Len w) →
      (runCalls w calls).sessionsGauge = some (Len (runCalls w calls)) := by
  induction calls with
  | nil => intro w h; exact h
  | cons c cs ih => intro w h; exact ih (c.exec w) (gauge_exec w c h)

theorem gauge_runCalls_of_write (calls : List Call) :
    ∀ w : World, (∃ c ∈ calls, c.isAddOrRemove = true) →
      (runCalls w calls).sessionsGauge = some (Len (runCalls w calls)) := by
  induction calls with
  | nil => intro w h; simp at h
  | cons c cs ih =>
      intro w h
      have hrun : runCalls w (c :: cs) = runCalls (c.exec w) cs := rfl
      rw [hrun]
      by_cases hc : c.isAddOrRemove = true
      · apply gauge_runCalls
        cases c with
        | Add id conn => exact gauge_Add w id conn
        | Remove id => exact gauge_Remove w id
        | Cleanup now lqt => simp [Call.isAddOrRemove] at hc
        | Get _ => simp [Call.isAddOrRemove] at hc
        | IDs => simp [Call.isAddOrRemove] at hc
        | Sessions => simp [Call.isAddOrRemove] at hc
        | Len => simp [Call.isAddOrRemove] at hc
      · apply ih
        obtain ⟨c', hmem, hc'⟩ := h
        rcases List.mem_cons.1 hmem with rfl | hmem'
        · exact absurd hc' hc
        · exact ⟨c', hmem', hc'⟩

/-! ## Theorems on the registry -/

/-- C1: after `Add(id, h)`, `Get(id)` returns `h`, and still returns `h` after
any sequence of `Add`/`Remove` calls on other ids and of `Get`, `IDs`,
`Sessions`, `Len` calls; `Get` of any other id returns what it returned before
the `Add`. -/
theorem Get_after_Add (w : World) (id : String) (h : ClientPtr) :
    Get (Add w id h) id = h ∧
    (∀ calls : List Call, (∀ c ∈ calls, c.writes id = false) →
      Get (runCalls (Add w id h) calls) id = h) ∧
    (∀ id' : String, id' ≠ id → Get (Add w id h) id' = Get w id') := by
  refine ⟨Get_Add_self w id h, ?_, ?_⟩
  · intro calls hc
    rw [Get_eq_of_lookup (lookup_runCalls_of_not_writes id calls (Add w id h) hc)]
    exact Get_Add_self w id h
  · intro id' hne
    exact Get_eq_of_lookup (lookup_Add_ne w h hne)

/-- Witness of C1: an entry for "a" survives calls on "b" and "c", and the
`Add` on "a" does not change what `Get` returns for "b". -/
theorem Get_after_Add_witness :
    Get (runCalls (Add (Add initWorld "b" (some 7)) "a" (some 1))
        [Call.Add "b" (some 2), Call.Remove "c", Call.Len, Call.Remove "b", Call.Get "a"])
      "a" = some 1 ∧
    Get (Add (Add initWorld "b" (some 7)) "a" (some 1)) "b"
      = Get (Add initWorld "b" (some 7)) "b" :=
  ⟨(Get_after_Add (Add initWorld "b" (some 7)) "a" (some 1)).2.1 _ (by decide),
   (Get_after_Add (Add initWorld "b" (some 7)) "a" (some 1)).2.2 "b" (by decide)⟩

/-- C2: `Remove(id)` on an id without entry returns false, leaves the sessions
map and the log of `Close` calls as they were, and sets the gauge to the
unchanged map size. -/
theorem Remove_absent (w : World) (id : String) (h : lookup w id = none) :
    (Remove w id).1 = false ∧
    (Remove w id).2.mgr = w.mgr ∧
    (Remove w id).2.closeLog = w.closeLog ∧
    (Remove w id).2.sessionsGauge = some (Len w) ∧
    Len (Remove w id).2 = Len w := by
  unfold lookup at h
  simp [Remove, h, SetSessionsCount, Len]

/-- Witness of C2: removing "b" from a registry that holds only "a". -/
theorem Remove_absent_witness :
    lookup (Add initWorld "a" (some 1)) "b" = none ∧
    (Remove (Add initWorld "a" (some 1)) "b").1 = false ∧
    (Remove (Add initWorld "a" (some 1)) "b").2.closeLog = [] :=
  ⟨by decide,
   (Remove_absent (Add initWorld "a" (some 1)) "b" (by decide)).1,
   (Remove_absent (Add initWorld "a" (some 1)) "b" (by decide)).2.2.1⟩

/-- C3: `Remove(id)` on an id whose entry holds `h` returns true, calls `Close`
on `h` once (and on nothing else), deletes the entry of `id`, leaves every
other entry unchanged; a second `Remove(id)` right after returns false and
calls `Close` on nothing. -/
theorem Remove_present (w : World) (id : String) (h : ClientPtr)
    (hl : lookup w id = some h) :
    (Remove w id).1 = true ∧
    (Remove w id).2.closeLog = w.closeLog ++ [h] ∧
    lookup (Remove w id).2 id = none ∧
    Len (Remove w id).2 + 1 = Len w ∧
    (∀ id' : String, id' ≠ id → lookup (Remove w id).2 id' = lookup w id') ∧
    (Remove (Remove w id).2 id).1 = false ∧
    (Remove (Remove w id).2 id).2.closeLog = w.closeLog ++ [h] ∧
    (Remove (Remove w id).2 id).2.mgr = (Remove w id).2.mgr := by
  have hgone : lookup (Remove w id).2 id = none := by
    unfold lookup at hl
    simp [Remove, hl, lookup, SetSessionsCount, Close]
  have hlog : (Remove w id).2.closeLog = w.closeLog ++ [h] := by
    unfold lookup at hl
    simp [Remove, hl, SetSessionsCount, Close]
  have h2 := Remove_absent (Remove w id).2 id hgone
  refine ⟨?_, hlog, hgone, Len_Remove_of_lookup hl, ?_, h2.1, ?_, h2.2.1⟩
  · unfold lookup at hl
    simp [Remove, hl]
  · intro id' hne
    exact lookup_Remove_ne w hne
  · rw [h2.2.2.1, hlog]

/-- Witness of C3: removing "a", which holds the handle 1, next to "b". -/
theorem Remove_present_witness :
    lookup (Add (Add initWorld "a" (some 1)) "b" (some 2)) "a" = some (some 1) ∧
    (Remove (Add (Add initWorld "a" (some 1)) "b" (some 2)) "a").1 = true ∧
    (Remove (Add (Add initWorld "a" (some 1)) "b" (some 2)) "a").2.closeLog
      = [] ++ [some 1] :=
  ⟨by decide,
   (Remove_present (Add (Add initWorld "a" (some 1)) "b" (some 2)) "a" (some 1)
      (by decide)).1,
   (Remove_present (Add (Add initWorld "a" (some 1)) "b" (some 2)) "a" (some 1)
      (by decide)).2.1⟩

/-- The sweep in terms of the check the code makes: with an idle timeout `T`
different from zero, after one `Cleanup` whose staleness check runs at time
`now`, a session whose handle has `now.Sub(LastQueryTime) > T` is absent and its
handle was closed by the sweep; a session whose handle has
`now.Sub(LastQueryTime) <= T` is still present with the same handle, and the
sweep did not close that handle. -/
theorem Cleanup_sweep_saturating (w : World) (now : Time) (LastQueryTime : ClientPtr → Time)
    (hT : w.mgr.idleTimeout ≠ 0) (id : String) (h : ClientPtr)
    (hl : lookup w id = some h) :
    (Sub now (LastQueryTime h) > w.mgr.idleTimeout →
      lookup (Cleanup w now LastQueryTime).2 id = none ∧
      w.closeLog.count h < (Cleanup w now LastQueryTime).2.closeLog.count h) ∧
    (Sub now (LastQueryTime h) ≤ w.mgr.idleTimeout →
      lookup (Cleanup w now LastQueryTime).2 id = some h ∧
      (Cleanup w now LastQueryTime).2.closeLog.count h = w.closeLog.count h) := by
  have hC : (Cleanup w now LastQueryTime).2
      = ((staleSessions w now LastQueryTime).foldl cleanupStep (0, w)).2 := by
    simp [Cleanup, hT]
  have hlog := closeLog_cleanupLoop (staleSessions w now LastQueryTime) (0, w)
    (staleSessions_nodup w now LastQueryTime)
  have hlk := lookup_cleanupLoop (staleSessions w now LastQueryTime) (0, w) id
  rw [hC, hlog, hlk]
  simp only [List.count_append]
  constructor
  · intro hs
    have hmem : id ∈ staleSessions w now LastQueryTime :=
      (mem_staleSessions w now LastQueryTime id).2 ⟨h, hl, hs⟩
    refine ⟨by simp [hmem], ?_⟩
    have hin : h ∈ (staleSessions w now LastQueryTime).filterMap (lookup w) :=
      List.mem_filterMap.2 ⟨id, hmem, hl⟩
    have := List.count_pos_iff.2 hin
    omega
  · intro hs
    have hnot : id ∉ staleSessions w now LastQueryTime := by
      intro hmem
      obtain ⟨h', hl', hs'⟩ := (mem_staleSessions w now LastQueryTime id).1 hmem
      rw [hl] at hl'
      cases hl'
      exact absurd hs' (not_lt.2 hs)
    refine ⟨by simp [hnot, hl], ?_⟩
    have hout : h ∉ (staleSessions w now LastQueryTime).filterMap (lookup w) := by
      intro hin
      obtain ⟨id', hmem', hl'⟩ := List.mem_filterMap.1 hin
      obtain ⟨h', hl2, hs'⟩ := (mem_staleSessions w now LastQueryTime id').1 hmem'
      rw [hl'] at hl2
      cases hl2
      exact absurd hs' (not_lt.2 hs)
    rw [List.count_eq_zero_of_not_mem hout]
    rfl

/-- C4, as the spec states it, fails at the largest idle timeout: with
`T = 2^63 - 1`, a session last used at time 0 and a sweep at time `2^63`, the
exact difference `now - LastQueryTime` is above `T`, yet the session is kept and
nothing is closed, because `now.Sub` never yields more than `2^63 - 1`. -/
theorem Cleanup_keeps_at_largest_timeout :
    (SetIdleTimeout (Add initWorld "a" (some 1)) 9223372036854775807).mgr.idleTimeout ≠ 0 ∧
    lookup (SetIdleTimeout (Add initWorld "a" (some 1)) 9223372036854775807) "a"
      = some (some 1) ∧
    (9223372036854775808 : Int) - (fun _ : ClientPtr => (0 : Int)) (some 1)
      > (SetIdleTimeout (Add initWorld "a" (some 1)) 9223372036854775807).mgr.idleTimeout ∧
    lookup (Cleanup (SetIdleTimeout (Add initWorld "a" (some 1)) 9223372036854775807)
      9223372036854775808 (fun _ => 0)).2 "a" = some (some 1) ∧
    (Cleanup (SetIdleTimeout (Add initWorld "a" (some 1)) 9223372036854775807)
      9223372036854775808 (fun _ => 0)).2.closeLog = [] := by
  decide

/-- C4, amended: with an idle timeout `T` different from zero that is a
`time.Duration` below the largest one (`-2^63 <= T < 2^63 - 1`), after one
`Cleanup` whose staleness check runs at time `now`: a session whose handle has
`now - LastQueryTime > T`, the exact difference, is absent and its handle was
closed by the sweep (it occurs more often in the log of `Close` calls than
before); a session whose handle has `now - LastQueryTime <= T` is still present
with the same handle, and the sweep did not close that handle. -/
theorem Cleanup_sweep (w : World) (now : Time) (LastQueryTime : ClientPtr → Time)
    (hT : w.mgr.idleTimeout ≠ 0)
    (hlo : minDuration ≤ w.mgr.idleTimeout) (hhi : w.mgr.idleTimeout < maxDuration)
    (id : String) (h : ClientPtr) (hl : lookup w id = some h) :
    (now - LastQueryTime h > w.mgr.idleTimeout →
      lookup (Cleanup w now LastQueryTime).2 id = none ∧
      w.closeLog.count h < (Cleanup w now LastQueryTime).2.closeLog.count h) ∧
    (now - LastQueryTime h ≤ w.mgr.idleTimeout →
      lookup (Cleanup w now LastQueryTime).2 id = some h ∧
      (Cleanup w now LastQueryTime).2.closeLog.count h = w.closeLog.count h) := by
  have hsat := Cleanup_sweep_saturating w now LastQueryTime hT id h hl
  have hiff := Sub_gt_iff now (LastQueryTime h) w.mgr.idleTimeout hlo hhi
  constructor
  · intro hs
    exact hsat.1 (hiff.2 hs)
  · intro hs
    exact hsat.2 (not_lt.1 (fun hgt => absurd (hiff.1 hgt) (not_lt.2 hs)))

/-- Witness of amended C4: timeout 10, sweep at time 100; "a" was last used at
0 and is reaped, "b" was last used at 95 and stays. -/
theorem Cleanup_sweep_witness :
    lookup (Cleanup
        (SetIdleTimeout (Add (Add initWorld "a" (some 1)) "b" (some 2)) 10) 100
        (fun c => if c = some 1 then 0 else 95)).2 "a" = none ∧
    lookup (Cleanup
        (SetIdleTimeout (Add (Add initWorld "a" (some 1)) "b" (some 2)) 10) 100
        (fun c => if c = some 1 then 0 else 95)).2 "b" = some (some 2) :=
  ⟨((Cleanup_sweep (SetIdleTimeout (Add (Add initWorld "a" (some 1)) "b" (some 2)) 10) 100
      (fun c => if c = some 1 then 0 else 95) (by decide) (by decide) (by decide)
      "a" (some 1) (by decide)).1 (by decide)).1,
   ((Cleanup_sweep (SetIdleTimeout (Add (Add initWorld "a" (some 1)) "b" (some 2)) 10) 100
      (fun c => if c = some 1 then 0 else 95) (by decide) (by decide) (by decide)
      "b" (some 2) (by decide)).2 (by decide)).1⟩

/-- C5: with the idle timeout zero, `Cleanup` returns 0 and changes nothing: no
entry is removed and no handle is closed, whatever the registry holds and
whatever the last query times are. -/
theorem Cleanup_disabled (w : World) (now : Time) (LastQueryTime : ClientPtr → Time)
    (hT : w.mgr.idleTimeout = 0) :
    Cleanup w now LastQueryTime = (0, w) := by
  simp [Cleanup, hT]

/-- Witness of C5: a fresh manager has idle timeout zero; its only session was
last used long ago and is kept. -/
theorem Cleanup_disabled_witness :
    (Add initWorld "a" (some 1)).mgr.idleTimeout = 0 ∧
    Cleanup (Add initWorld "a" (some 1)) 1000000 (fun _ => 0)
      = (0, Add initWorld "a" (some 1)) :=
  ⟨by decide, Cleanup_disabled (Add initWorld "a" (some 1)) 1000000 (fun _ => 0) (by decide)⟩

/-- C6, as the spec states it, fails: after `Add("a", 1)` and `Add("a", 2)`, in
which every `Add` inserts a new handle, the handle 1 was inserted and is no
longer stored, and it was never closed. -/
theorem overwritten_handle_not_closed :
    (inserted [Call.Add "a" (some 1), Call.Add "a" (some 2)]).Nodup ∧
    some 1 ∈ inserted [Call.Add "a" (some 1), Call.Add "a" (some 2)] ∧
    some 1 ∉ storedHandles
      (runCalls initWorld [Call.Add "a" (some 1), Call.Add "a" (some 2)]) ∧
    (runCalls initWorld [Call.Add "a" (some 1), Call.Add "a" (some 2)]).closeLog.count
      (some 1) = 0 ∧
    (runCalls initWorld [Call.Add "a" (some 1), Call.Add "a" (some 2)]).closeLog.count
      (some 1) ≠ 1 := by
  decide

/-- C6, amended: in a run of calls from an empty registry (no entry, nothing
closed yet, any idle timeout, so that a `Cleanup` of the run may reap) in which
every `Add` inserts a handle not inserted before, every handle is closed at most
once; and a handle that was inserted and is no longer stored was closed exactly
once when its entry was deleted by `Remove` or `Cleanup` (it was not
overwritten), and was never closed when its entry was overwritten by a later
`Add` on the same id. -/
theorem closed_once_unless_overwritten (w : World) (calls : List Call)
    (hempty : w.mgr.sessions = ∅) (hlog : w.closeLog = [])
    (hfresh : (inserted calls).Nodup) :
    (∀ h : ClientPtr, (runCalls w calls).closeLog.count h ≤ 1) ∧
    (∀ h ∈ inserted calls, h ∉ storedHandles (runCalls w calls) →
      (h ∉ overwritten w calls → (runCalls w calls).closeLog.count h = 1) ∧
      (h ∈ overwritten w calls → (runCalls w calls).closeLog.count h = 0)) := by
  have hzero : ∀ h : ClientPtr, live w h = 0 := by
    intro h
    simp [live, storedHandles, hempty, hlog]
  constructor
  · intro h
    have hrun := live_runCalls h calls w
    have hle := count_le_one_of_nodup hfresh h
    rw [hzero] at hrun
    unfold live at hrun
    omega
  · intro h hin hns
    have hrun := live_runCalls h calls w
    have hone := count_eq_one_of_nodup_mem hfresh hin
    have hst := List.count_eq_zero_of_not_mem hns
    rw [hzero] at hrun
    unfold live at hrun
    constructor
    · intro hno
      have := List.count_eq_zero_of_not_mem hno
      omega
    · intro hov
      have := List.count_pos_iff.2 hov
      omega

/-- Witness of amended C6, with idle timeout 10: handle 1 is overwritten and
never closed; handle 2 is reaped by the `Cleanup` at time 100 and closed once;
handle 3 is removed by `Remove` and closed once. -/
theorem closed_once_unless_overwritten_witness :
    (runCalls (SetIdleTimeout initWorld 10)
        [Call.Add "a" (some 1), Call.Add "a" (some 2), Call.Add "b" (some 3),
         Call.Cleanup 100 (fun c => if c = some 2 then 0 else 95),
         Call.Remove "b"]).closeLog = [some 2, some 3] ∧
    (runCalls (SetIdleTimeout initWorld 10)
        [Call.Add "a" (some 1), Call.Add "a" (some 2), Call.Add "b" (some 3),
         Call.Cleanup 100 (fun c => if c = some 2 then 0 else 95),
         Call.Remove "b"]).closeLog.count (some 2) = 1 ∧
    (runCalls (SetIdleTimeout initWorld 10)
        [Call.Add "a" (some 1), Call.Add "a" (some 2), Call.Add "b" (some 3),
         Call.Cleanup 100 (fun c => if c = some 2 then 0 else 95),
         Call.Remove "b"]).closeLog.count (some 1) = 0 :=
  ⟨by decide,
   ((closed_once_unless_overwritten (SetIdleTimeout initWorld 10)
        [Call.Add "a" (some 1), Call.Add "a" (some 2), Call.Add "b" (some 3),
         Call.Cleanup 100 (fun c => if c = some 2 then 0 else 95),
         Call.Remove "b"] rfl rfl (by decide)).2
      (some 2) (by decide) (by decide)).1 (by decide),
   ((closed_once_unless_overwritten (SetIdleTimeout initWorld 10)
        [Call.Add "a" (some 1), Call.Add "a" (some 2), Call.Add "b" (some 3),
         Call.Cleanup 100 (fun c => if c = some 2 then 0 else 95),
         Call.Remove "b"] rfl rfl (by decide)).2
      (some 1) (by decide) (by decide)).2 (by decide)⟩

/-- C7: right after every `Add` and every `Remove` (whether it removed an entry
or not) the value last passed to `metrics.SetSessionsCount` is the number of
entries of the sessions map, which is what `Len()` returns then; and so it is
after every sequence of calls that contains at least one `Add` or `Remove`. -/
theorem gauge_eq_Len (w : World) :
    (∀ (id : String) (conn : ClientPtr),
      (Add w id conn).sessionsGauge = some (Len (Add w id conn))) ∧
    (∀ id : String, (Remove w id).2.sessionsGauge = some (Len (Remove w id).2)) ∧
    (∀ calls : List Call, (∃ c ∈ calls, c.isAddOrRemove = true) →
      (runCalls w calls).sessionsGauge = some (Len (runCalls w calls))) :=
  ⟨gauge_Add w, gauge_Remove w, fun calls h => gauge_runCalls_of_write calls w h⟩

/-- Witness of C7: a run with a reaping `Cleanup` after the last `Add`; the gauge
reads 1, the size of the map. -/
theorem gauge_eq_Len_witness :
    (runCalls (SetIdleTimeout initWorld 10)
        [Call.Add "a" (some 1), Call.Add "b" (some 2),
         Call.Cleanup 100 (fun c => if c = some 1 then 0 else 95)]).sessionsGauge
      = some (Len (runCalls (SetIdleTimeout initWorld 10)
        [Call.Add "a" (some 1), Call.Add "b" (some 2),
         Call.Cleanup 100 (fun c => if c = some 1 then 0 else 95)])) ∧
    Len (runCalls (SetIdleTimeout initWorld 10)
        [Call.Add "a" (some 1), Call.Add "b" (some 2),
         Call.Cleanup 100 (fun c => if c = some 1 then 0 else 95)]) = 1 :=
  ⟨(gauge_eq_Len (SetIdleTimeout initWorld 10)).2.2 _
      ⟨Call.Add "a" (some 1), by simp, rfl⟩,
   by decide⟩

/-! ## Lemmas on testClient -/

theorem testClientLoop_refused_then_ok (retryDelay : Duration) (Test : Nat → Option Error)
    (n : Nat) :
    ∀ (fuel : Nat) (st : LoopState), n < fuel → (n : Int) ≤ st.retryCount →
      (∀ i, i < n → ∃ e, Test (st.tests + i) = some e ∧
        errorsIs e .ErrConnectionRefused = true) →
      Test (st.tests + n) = none →
      testClientLoop false retryDelay Test fuel st
        = some ⟨false, none, st.tests + n + 1, st.waits ++ List.replicate n retryDelay⟩ := by
  induction n with
  | zero =>
      intro fuel st hf _ _ hok
      obtain ⟨f, rfl⟩ : ∃ f, fuel = f + 1 := ⟨fuel - 1, by omega⟩
      simp only [Nat.add_zero] at hok
      simp [testClientLoop, iteration, hok]
  | succ n ih =>
      intro fuel st hf hrc hfail hok
      obtain ⟨f, rfl⟩ : ∃ f, fuel = f + 1 := ⟨fuel - 1, by omega⟩
      obtain ⟨e, he, hcr⟩ := hfail 0 (by omega)
      simp only [Nat.add_zero] at he
      have hpos : st.retryCount > 0 := by push_cast at hrc; omega
      have hstep : testClientLoop false retryDelay Test (f + 1) st
          = testClientLoop false retryDelay Test f
              ⟨st.retryCount - 1, st.tests + 1, st.waits ++ [retryDelay]⟩ := by
        simp [testClientLoop, iteration, he, hcr, hpos]
      rw [hstep, ih f ⟨st.retryCount - 1, st.tests + 1, st.waits ++ [retryDelay]⟩
        (by omega) (by push_cast at hrc; simp only; omega)
        (by
          intro i hi
          have := hfail (i + 1) (by omega)
          simpa [Nat.add_assoc, Nat.add_comm 1 i] using this)
        (by simpa [Nat.add_assoc, Nat.add_comm 1 n] using hok)]
      simp [List.replicate_succ, Nat.add_assoc, Nat.add_comm 1 n]

theorem usingDefaultDB_eq_false {opts : Options}
    (h : opts.DbName ≠ "" ∨ opts.URL ≠ "") : usingDefaultDB opts = false := by
  unfold usingDefaultDB
  rcases h with h | h <;> simp [h]

theorem usingDefaultDB_eq_true {opts : Options}
    (h : opts.DbName = "" ∧ opts.URL = "") : usingDefaultDB opts = true := by
  unfold usingDefaultDB
  simp [h.1, h.2]

theorem iteration_tests (d : Bool) (retryDelay : Duration) (Test : Nat → Option Error)
    (st : LoopState) : (iteration d retryDelay Test st).2.tests = st.tests + 1 := by
  unfold iteration
  cases Test st.tests with
  | none => rfl
  | some e => dsimp only; split_ifs <;> rfl

theorem testClientLoop_tests (d : Bool) (retryDelay : Duration) (Test : Nat → Option Error)
    (fuel : Nat) :
    ∀ (st : LoopState) (o : Outcome),
      testClientLoop d retryDelay Test fuel st = some o → st.tests + 1 ≤ o.tests := by
  induction fuel with
  | zero => intro st o h; simp [testClientLoop] at h
  | succ f ih =>
      intro st o h
      have ht := iteration_tests d retryDelay Test st
      unfold testClientLoop at h
      rcases hit : iteration d retryDelay Test st with ⟨r, st1⟩
      rw [hit] at h ht
      cases r with
      | some r =>
          simp only [Option.some.injEq] at h
          subst h
          simp only at ht ⊢
          omega
      | none =>
          have := ih st1 o h
          simp only at ht
          omega

/-! ## Theorems on testClient -/

/-- C8: with `DbName` or `URL` set, if the first `n` calls of `cl.Test` fail with
connection refused, `n <= retryCount`, and call `n + 1` succeeds, then
`testClient` returns `(false, nil)` after exactly `n + 1` calls of `cl.Test` and
exactly `n` waits, each of `retryDelay`. -/
theorem testClient_retries_then_connects (opts : Options) (Test : Nat → Option Error)
    (retryCount : Int) (retryDelay : Duration) (n : Nat)
    (hopts : opts.DbName ≠ "" ∨ opts.URL ≠ "")
    (hn : (n : Int) ≤ retryCount)
    (hfail : ∀ i, i < n → ∃ e, Test i = some e ∧ errorsIs e .ErrConnectionRefused = true)
    (hok : Test n = none) :
    testClient opts Test retryCount retryDelay
      = some ⟨false, none, n + 1, List.replicate n retryDelay⟩ := by
  unfold testClient
  rw [usingDefaultDB_eq_false hopts]
  have h := testClientLoop_refused_then_ok retryDelay Test n (retryCount.toNat + 1)
    ⟨retryCount, 0, []⟩ (by omega) hn (by simpa using hfail) (by simpa using hok)
  simpa using h

/-- Witness of C8, the case of the spec: `retryCount = 2`, two refused attempts,
then success: three attempts and two waits. -/
theorem testClient_retries_then_connects_witness :
    testClient ⟨"booktown", ""⟩
        (fun k => if k < 2 then some ⟨"connection refused", [.ErrConnectionRefused]⟩ else none)
        2 3000000000
      = some ⟨false, none, 2 + 1, List.replicate 2 3000000000⟩ :=
  testClient_retries_then_connects ⟨"booktown", ""⟩
    (fun k => if k < 2 then some ⟨"connection refused", [.ErrConnectionRefused]⟩ else none)
    2 3000000000 2 (by decide) (by decide)
    (fun i hi => ⟨⟨"connection refused", [.ErrConnectionRefused]⟩, by simp [hi], by decide⟩)
    (by decide)

/-- C9, as the spec states it, fails for the default configuration: with
`DbName` and `URL` empty and `retryCount = 3`, a first attempt that fails with
connection refused makes `testClient` return `(false, err)` after that one
attempt, without a wait. -/
theorem default_config_does_not_retry :
    usingDefaultDB ⟨"", ""⟩ = true ∧
    iteration (usingDefaultDB ⟨"", ""⟩) 5
        (fun _ => some ⟨"connection refused", [.ErrConnectionRefused]⟩) ⟨3, 0, []⟩
      = (some (false, some ⟨"connection refused", [.ErrConnectionRefused]⟩), ⟨3, 1, []⟩) ∧
    testClient ⟨"", ""⟩ (fun _ => some ⟨"connection refused", [.ErrConnectionRefused]⟩) 3 5
      = some ⟨false, some ⟨"connection refused", [.ErrConnectionRefused]⟩, 1, []⟩ := by
  decide

/-- C9, amended: with `DbName` or `URL` set, for every `retryDelay` and every
remaining `retryCount > 0`, a pass of the loop whose attempt fails with
connection refused does not return: it waits `retryDelay` once, lowers the
remaining retry count by one, and the loop goes on from there with another
attempt (whenever `testClient` returns after that, it has made at least two
attempts since). -/
theorem iteration_retries_when_refused (opts : Options) (retryDelay : Duration)
    (Test : Nat → Option Error) (st : LoopState) (e : Error)
    (hopts : opts.DbName ≠ "" ∨ opts.URL ≠ "")
    (hrc : st.retryCount > 0)
    (he : Test st.tests = some e)
    (hcr : errorsIs e .ErrConnectionRefused = true) :
    iteration (usingDefaultDB opts) retryDelay Test st
      = (none, ⟨st.retryCount - 1, st.tests + 1, st.waits ++ [retryDelay]⟩) ∧
    (∀ fuel : Nat,
      testClientLoop (usingDefaultDB opts) retryDelay Test (fuel + 1) st
        = testClientLoop (usingDefaultDB opts) retryDelay Test fuel
            ⟨st.retryCount - 1, st.tests + 1, st.waits ++ [retryDelay]⟩) ∧
    (∀ (fuel : Nat) (o : Outcome),
      testClientLoop (usingDefaultDB opts) retryDelay Test fuel st = some o →
        st.tests + 2 ≤ o.tests) := by
  rw [usingDefaultDB_eq_false hopts]
  have hit : iteration false retryDelay Test st
      = (none, ⟨st.retryCount - 1, st.tests + 1, st.waits ++ [retryDelay]⟩) := by
    simp [iteration, he, hcr, hrc]
  have hloop : ∀ fuel : Nat,
      testClientLoop false retryDelay Test (fuel + 1) st
        = testClientLoop false retryDelay Test fuel
            ⟨st.retryCount - 1, st.tests + 1, st.waits ++ [retryDelay]⟩ := by
    intro fuel
    simp [testClientLoop, hit]
  refine ⟨hit, hloop, ?_⟩
  intro fuel o ho
  cases fuel with
  | zero => simp [testClientLoop] at ho
  | succ f =>
      rw [hloop f] at ho
      have := testClientLoop_tests false retryDelay Test f _ o ho
      simp only at this
      omega

/-- Witness of amended C9: database name set, one retry left, the attempt is
refused: the pass continues with the count at 0 and one wait recorded. -/
theorem iteration_retries_when_refused_witness :
    iteration (usingDefaultDB ⟨"booktown", ""⟩) 5
        (fun _ => some ⟨"connection refused", [.ErrConnectionRefused]⟩) ⟨1, 0, []⟩
      = (none, ⟨1 - 1, 0 + 1, [] ++ [5]⟩) :=
  (iteration_retries_when_refused ⟨"booktown", ""⟩ 5
    (fun _ => some ⟨"connection refused", [.ErrConnectionRefused]⟩) ⟨1, 0, []⟩
    ⟨"connection refused", [.ErrConnectionRefused]⟩
    (by decide) (by decide) rfl (by decide)).1

/-- C10: with `DbName` and `URL` both empty, a first attempt that fails with
connection refused, authentication failed or database does not exist makes
`testClient` return `(false, err)` after that one attempt and without a wait;
and whatever the attempts give, `testClient` returns after exactly one attempt
without a wait: with default parameters it never retries. -/
theorem testClient_default_no_retry (opts : Options) (Test : Nat → Option Error)
    (retryCount : Int) (retryDelay : Duration)
    (hopts : opts.DbName = "" ∧ opts.URL = "") :
    (∀ e : Error, Test 0 = some e →
      (errorsIs e .ErrConnectionRefused = true ∨ errorsIs e .ErrAuthFailed = true ∨
        errorsIs e .ErrDatabaseNotExist = true) →
      testClient opts Test retryCount retryDelay = some ⟨false, some e, 1, []⟩) ∧
    (∃ o : Outcome, testClient opts Test retryCount retryDelay = some o ∧
      o.tests = 1 ∧ o.waits = []) := by
  unfold testClient
  rw [usingDefaultDB_eq_true hopts]
  constructor
  · intro e he hkind
    have hk : (errorsIs e .ErrConnectionRefused || errorsIs e .ErrAuthFailed ||
        errorsIs e .ErrDatabaseNotExist) = true := by
      rcases hkind with h | h | h <;> simp [h]
    simp [testClientLoop, iteration, he, hk]
  · cases he : Test 0 with
    | none => exact ⟨⟨false, none, 1, []⟩, by simp [testClientLoop, iteration, he], rfl, rfl⟩
    | some e =>
        by_cases hk : (errorsIs e .ErrConnectionRefused || errorsIs e .ErrAuthFailed ||
            errorsIs e .ErrDatabaseNotExist) = true
        · exact ⟨⟨false, some e, 1, []⟩, by simp [testClientLoop, iteration, he, hk], rfl, rfl⟩
        · simp only [Bool.or_eq_true, not_or, Bool.not_eq_true] at hk
          obtain ⟨⟨h1, h2⟩, h3⟩ := hk
          exact ⟨⟨true, some e, 1, []⟩,
            by simp [testClientLoop, iteration, he, h1, h2, h3], rfl, rfl⟩

/-- Witness of C10: default parameters, five retries allowed, the server refuses
the connection: one attempt, no wait, start-up goes on. -/
theorem testClient_default_no_retry_witness :
    testClient ⟨"", ""⟩ (fun _ => some ⟨"connection refused", [.ErrConnectionRefused]⟩) 5 3
      = some ⟨false, some ⟨"connection refused", [.ErrConnectionRefused]⟩, 1, []⟩ :=
  (testClient_default_no_retry ⟨"", ""⟩
    (fun _ => some ⟨"connection refused", [.ErrConnectionRefused]⟩) 5 3 (by decide)).1
    ⟨"connection refused", [.ErrConnectionRefused]⟩ rfl (by decide)

/-! ## Further lemmas on testClient -/

theorem testClientLoop_refused (retryDelay : Duration) (Test : Nat → Option Error)
    (n : Nat) :
    ∀ (fuel : Nat) (st : LoopState), (n : Int) ≤ st.retryCount →
      (∀ i, i < n → ∃ e, Test (st.tests + i) = some e ∧
        errorsIs e .ErrConnectionRefused = true) →
      testClientLoop false retryDelay Test (fuel + n) st
        = testClientLoop false retryDelay Test fuel
            ⟨st.retryCount - n, st.tests + n, st.waits ++ List.replicate n retryDelay⟩ := by
  induction n with
  | zero =>
      intro fuel st _ _
      cases st
      simp
  | succ n ih =>
      intro fuel st hrc hfail
      obtain ⟨e, he, hcr⟩ := hfail 0 (by omega)
      simp only [Nat.add_zero] at he
      have hpos : st.retryCount > 0 := by push_cast at hrc; omega
      have hstep : testClientLoop false retryDelay Test (fuel + n + 1) st
          = testClientLoop false retryDelay Test (fuel + n)
              ⟨st.retryCount - 1, st.tests + 1, st.waits ++ [retryDelay]⟩ := by
        simp [testClientLoop, iteration, he, hcr, hpos]
      have hih := ih fuel ⟨st.retryCount - 1, st.tests + 1, st.waits ++ [retryDelay]⟩
        (by push_cast at hrc; simp only; omega)
        (by
          intro i hi
          have := hfail (i + 1) (by omega)
          simpa [Nat.add_assoc, Nat.add_comm 1 i] using this)
      rw [← Nat.add_assoc, hstep, hih]
      congr 1
      simp only [LoopState.mk.injEq]
      refine ⟨by push_cast; omega, by omega, ?_⟩
      simp [List.replicate_succ]

theorem iteration_returns_or_continues (d : Bool) (retryDelay : Duration)
    (Test : Nat → Option Error) (st : LoopState) :
    (∃ a : Bool,
      iteration d retryDelay Test st
        = (some (a, Test st.tests), ⟨st.retryCount, st.tests + 1, st.waits⟩) ∧
      (a = true → Test st.tests ≠ none)) ∨
    (0 < st.retryCount ∧
      iteration d retryDelay Test st
        = (none, ⟨st.retryCount - 1, st.tests + 1, st.waits ++ [retryDelay]⟩)) := by
  unfold iteration
  cases he : Test st.tests with
  | none => exact Or.inl ⟨false, rfl, by simp⟩
  | some e =>
      dsimp only
      split_ifs with h1 h2
      · exact Or.inl ⟨false, rfl, by simp⟩
      · refine Or.inr ⟨?_, rfl⟩
        simp only [Bool.and_eq_true, decide_eq_true_eq] at h2
        exact h2.2
      · exact Or.inl ⟨true, rfl, by simp⟩

theorem testClientLoop_returns (d : Bool) (retryDelay : Duration)
    (Test : Nat → Option Error) (n : Nat) :
    ∀ st : LoopState, st.retryCount.toNat ≤ n →
      ∃ o : Outcome,
        (∀ fuel, st.retryCount.toNat < fuel →
          testClientLoop d retryDelay Test fuel st = some o) ∧
        st.tests + 1 ≤ o.tests ∧
        o.tests ≤ st.tests + st.retryCount.toNat + 1 ∧
        o.waits.length ≤ st.waits.length + st.retryCount.toNat ∧
        o.err = Test (o.tests - 1) ∧
        (o.abort = true → o.err ≠ none) := by
  induction n with
  | zero =>
      intro st hn
      rcases iteration_returns_or_continues d retryDelay Test st with ⟨a, hit, ha⟩ | ⟨hpos, _⟩
      · refine ⟨⟨a, Test st.tests, st.tests + 1, st.waits⟩, ?_, ?_, ?_, ?_, ?_, ha⟩
        · intro fuel hf
          obtain ⟨f, rfl⟩ : ∃ f, fuel = f + 1 := ⟨fuel - 1, by omega⟩
          simp [testClientLoop, hit]
        · simp
        · simp only; omega
        · simp
        · simp
      · omega
  | succ n ih =>
      intro st hn
      rcases iteration_returns_or_continues d retryDelay Test st with ⟨a, hit, ha⟩ | ⟨hpos, hit⟩
      · refine ⟨⟨a, Test st.tests, st.tests + 1, st.waits⟩, ?_, ?_, ?_, ?_, ?_, ha⟩
        · intro fuel hf
          obtain ⟨f, rfl⟩ : ∃ f, fuel = f + 1 := ⟨fuel - 1, by omega⟩
          simp [testClientLoop, hit]
        · simp
        · simp only; omega
        · simp
        · simp
      · obtain ⟨o, hret, h1, h2, h3, h4, h5⟩ :=
          ih ⟨st.retryCount - 1, st.tests + 1, st.waits ++ [retryDelay]⟩ (by simp only; omega)
        simp only [List.length_append, List.length_singleton] at h1 h2 h3
        refine ⟨o, ?_, by omega, by omega, by omega, h4, h5⟩
        intro fuel hf
        obtain ⟨f, rfl⟩ : ∃ f, fuel = f + 1 := ⟨fuel - 1, by omega⟩
        have := hret f (by simp only; omega)
        simpa [testClientLoop, hit] using this

/-! ## Further theorems on testClient -/

/-- C11: when an attempt of `testClient` fails with an error that is not
connection refused, and it is not so that default parameters are in use and the
error is authentication failed or database does not exist, the pass returns
`(true, err)` with that error: no wait, no change of the retry count, no further
attempt, whatever `retryCount` and `retryDelay` are; for the first attempt this
is the result of `testClient`. With `DbName` or `URL` set the second condition
holds for every error, so authentication failed and database does not exist are
fatal and never retried. -/
theorem testClient_fatal_error (opts : Options) (Test : Nat → Option Error)
    (retryDelay : Duration) (st : LoopState) (e : Error)
    (he : Test st.tests = some e)
    (hncr : errorsIs e .ErrConnectionRefused = false)
    (hnd : ¬ (usingDefaultDB opts = true ∧
      (errorsIs e .ErrAuthFailed = true ∨ errorsIs e .ErrDatabaseNotExist = true))) :
    iteration (usingDefaultDB opts) retryDelay Test st
      = (some (true, some e), ⟨st.retryCount, st.tests + 1, st.waits⟩) ∧
    (∀ fuel : Nat,
      testClientLoop (usingDefaultDB opts) retryDelay Test (fuel + 1) st
        = some ⟨true, some e, st.tests + 1, st.waits⟩) ∧
    (∀ retryCount : Int, st = ⟨retryCount, 0, []⟩ →
      testClient opts Test retryCount retryDelay = some ⟨true, some e, 1, []⟩) := by
  have hgate : (usingDefaultDB opts &&
      (errorsIs e .ErrConnectionRefused || errorsIs e .ErrAuthFailed ||
        errorsIs e .ErrDatabaseNotExist)) = false := by
    cases hd : usingDefaultDB opts
    · simp
    · have h1 : errorsIs e .ErrAuthFailed = false := by
        cases h : errorsIs e .ErrAuthFailed
        · rfl
        · exact absurd ⟨hd, Or.inl h⟩ hnd
      have h2 : errorsIs e .ErrDatabaseNotExist = false := by
        cases h : errorsIs e .ErrDatabaseNotExist
        · rfl
        · exact absurd ⟨hd, Or.inr h⟩ hnd
      simp [hncr, h1, h2]
  have hit : iteration (usingDefaultDB opts) retryDelay Test st
      = (some (true, some e), ⟨st.retryCount, st.tests + 1, st.waits⟩) := by
    simp only [iteration, he]
    rw [if_neg (fun h => by rw [hgate] at h; exact Bool.false_ne_true h),
      if_neg (fun h => by rw [hncr] at h; simp at h)]
  have hloop : ∀ fuel : Nat,
      testClientLoop (usingDefaultDB opts) retryDelay Test (fuel + 1) st
        = some ⟨true, some e, st.tests + 1, st.waits⟩ := by
    intro fuel
    simp [testClientLoop, hit]
  refine ⟨hit, hloop, ?_⟩
  intro retryCount hst
  unfold testClient
  rw [← hst, hloop]
  simp [hst]

/-- Witness of C11: database name set, five retries allowed, the first attempt
fails with authentication failed: fatal after one attempt, no wait. -/
theorem testClient_fatal_error_witness :
    testClient ⟨"booktown", ""⟩ (fun _ => some ⟨"auth failed", [.ErrAuthFailed]⟩) 5 3
      = some ⟨true, some ⟨"auth failed", [.ErrAuthFailed]⟩, 1, []⟩ :=
  (testClient_fatal_error ⟨"booktown", ""⟩ (fun _ => some ⟨"auth failed", [.ErrAuthFailed]⟩)
    3 ⟨5, 0, []⟩ ⟨"auth failed", [.ErrAuthFailed]⟩ rfl (by decide) (by decide)).2.2 5 rfl

/-- C12: with `DbName` or `URL` set and `retryCount >= 0`, if every attempt fails
with connection refused, `testClient` returns `(true, err)` with the error of
the last attempt, after exactly `retryCount + 1` attempts and exactly
`retryCount` waits of `retryDelay`; with `retryCount = 0` that is after the
first attempt and without a wait. -/
theorem testClient_retries_exhausted (opts : Options) (Test : Nat → Option Error)
    (retryCount : Int) (retryDelay : Duration)
    (hopts : opts.DbName ≠ "" ∨ opts.URL ≠ "")
    (h0 : 0 ≤ retryCount)
    (hfail : ∀ i, i ≤ retryCount.toNat →
      ∃ e, Test i = some e ∧ errorsIs e .ErrConnectionRefused = true) :
    (∃ e : Error, Test retryCount.toNat = some e ∧
      errorsIs e .ErrConnectionRefused = true ∧
      testClient opts Test retryCount retryDelay
        = some ⟨true, some e, retryCount.toNat + 1,
            List.replicate retryCount.toNat retryDelay⟩) ∧
    (retryCount = 0 → ∃ e : Error, Test 0 = some e ∧
      testClient opts Test retryCount retryDelay = some ⟨true, some e, 1, []⟩) := by
  obtain ⟨e, he, hcr⟩ := hfail retryCount.toNat (le_refl _)
  have hres : testClient opts Test retryCount retryDelay
      = some ⟨true, some e, retryCount.toNat + 1,
          List.replicate retryCount.toNat retryDelay⟩ := by
    unfold testClient
    rw [usingDefaultDB_eq_false hopts, Nat.add_comm]
    rw [testClientLoop_refused retryDelay Test retryCount.toNat 1 ⟨retryCount, 0, []⟩
      (by simp only; omega)
      (by
        intro i hi
        simpa using hfail i (by omega))]
    have hz : retryCount - (retryCount.toNat : Int) = 0 := by omega
    simp [testClientLoop, iteration, he, hcr, hz]
    omega
  refine ⟨⟨e, he, hcr, hres⟩, ?_⟩
  intro hzero
  subst hzero
  exact ⟨e, by simpa using he, by simpa using hres⟩

/-- Witness of C12: `retryCount = 2`, the server always refuses: fatal after
three attempts and two waits. -/
theorem testClient_retries_exhausted_witness :
    ∃ e : Error,
      (fun _ : Nat => some (Error.mk "connection refused" [.ErrConnectionRefused]))
        (Int.toNat 2) = some e ∧
      errorsIs e .ErrConnectionRefused = true ∧
      testClient ⟨"", "postgres://localhost/booktown"⟩
          (fun _ => some ⟨"connection refused", [.ErrConnectionRefused]⟩) 2 3
        = some ⟨true, some e, Int.toNat 2 + 1, List.replicate (Int.toNat 2) 3⟩ :=
  (testClient_retries_exhausted ⟨"", "postgres://localhost/booktown"⟩
    (fun _ => some ⟨"connection refused", [.ErrConnectionRefused]⟩) 2 3
    (by decide) (by decide)
    (fun _ _ => ⟨⟨"connection refused", [.ErrConnectionRefused]⟩, rfl, by decide⟩)).1

/-- C15: for every configuration, every `retryCount` (negative ones too) and
every sequence of attempt results, `testClient` returns, whatever amount of
fuel from `max(retryCount, 0) + 1` passes on the loop is given; it has then made
at least one and at most `max(retryCount, 0) + 1` calls of `cl.Test` and at most
`max(retryCount, 0)` waits; `err` is the result of the last attempt, so it is
nil exactly when the last attempt succeeded; and `abort = true` implies that
`err` is not nil. -/
theorem testClient_terminates (opts : Options) (Test : Nat → Option Error)
    (retryCount : Int) (retryDelay : Duration) :
    ∃ o : Outcome,
      testClient opts Test retryCount retryDelay = some o ∧
      (∀ fuel : Nat, retryCount.toNat + 1 ≤ fuel →
        testClientLoop (usingDefaultDB opts) retryDelay Test fuel ⟨retryCount, 0, []⟩
          = some o) ∧
      1 ≤ o.tests ∧
      (o.tests : Int) ≤ max retryCount 0 + 1 ∧
      (o.waits.length : Int) ≤ max retryCount 0 ∧
      (o.err = none ↔ Test (o.tests - 1) = none) ∧
      (o.abort = true → o.err ≠ none) := by
  obtain ⟨o, hret, h1, h2, h3, h4, h5⟩ :=
    testClientLoop_returns (usingDefaultDB opts) retryDelay Test retryCount.toNat
      ⟨retryCount, 0, []⟩ (le_refl _)
  simp only [List.length_nil, Nat.zero_add] at h1 h2 h3
  have hmax : ((retryCount.toNat : Nat) : Int) = max retryCount 0 := Int.toNat_eq_max retryCount
  refine ⟨o, hret _ (by simp only; omega), ?_, by omega, ?_, ?_, ?_, h5⟩
  · intro fuel hf
    exact hret fuel (by simp only; omega)
  · rw [← hmax]; exact_mod_cast h2
  · rw [← hmax]; exact_mod_cast h3
  · rw [h4]

/-! ## Lemmas on the snapshots -/

theorem idsFold_eq (l : List (Sigma fun _ : String => ClientPtr)) :
    ∀ init : List String,
      l.foldl (fun ids e => ids ++ [e.1]) init = init ++ l.map (fun e => e.1) := by
  induction l with
  | nil => intro init; simp
  | cons e t ih => intro init; simp [List.foldl_cons, ih]

theorem IDs_eq_keys (w : World) : IDs w = w.mgr.sessions.keys := by
  unfold IDs
  rw [idsFold_eq]
  simp [AList.keys, List.keys]

theorem lookup_sessionsFold (id : String) (l : List (Sigma fun _ : String => ClientPtr)) :
    ∀ acc : SessionMap, l.NodupKeys →
      (l.foldl (fun sessions e => sessions.insert e.1 e.2) acc).lookup id
        = match List.dlookup id l with
          | some v => some v
          | none => acc.lookup id := by
  induction l with
  | nil => intro acc _; simp
  | cons e t ih =>
      intro acc hnd
      obtain ⟨k, v⟩ := e
      have hnd' := List.nodupKeys_cons.1 hnd
      rw [List.foldl_cons, ih _ hnd'.2]
      by_cases hk : id = k
      · subst hk
        have hnone : List.dlookup id t = none := List.dlookup_eq_none.2 hnd'.1
        simp [hnone, List.dlookup_cons_eq]
      · rw [List.dlookup_cons_ne t ⟨k, v⟩ hk]
        cases hd : List.dlookup id t with
        | some v' => rfl
        | none => simp [AList.lookup_insert_ne hk]

theorem lookup_Sessions (w : World) (id : String) :
    (Sessions w).lookup id = lookup w id := by
  unfold Sessions
  rw [lookup_sessionsFold id _ ∅ w.mgr.sessions.nodupKeys]
  unfold lookup AList.lookup
  cases hd : List.dlookup id w.mgr.sessions.entries <;> simp

theorem length_Sessions (w : World) : (Sessions w).entries.length = Len w := by
  have hmem : ∀ id : String, id ∈ (Sessions w).keys ↔ id ∈ w.mgr.sessions.keys := by
    intro id
    rw [← AList.mem_keys, ← AList.mem_keys, ← AList.lookup_isSome, ← AList.lookup_isSome,
      lookup_Sessions, lookup]
  have hperm : (Sessions w).keys.Perm w.mgr.sessions.keys :=
    (List.perm_ext_iff_of_nodup (Sessions w).keys_nodup w.mgr.sessions.keys_nodup).2 hmem
  have hlen := hperm.length_eq
  simpa [Len, AList.keys, List.keys] using hlen

/-! ## Theorems on the snapshots and on the request gate -/

/-- C13: the handler of `dbCheckMiddleware` lets a request whose prefix-stripped
path is on the allow-list proceed. For any other request: in single-connection
mode it rejects with `errNotConnected` when `DbClient` is nil and lets the
request proceed otherwise; in multi-session mode it rejects with
`errSessionRequired` when the session id is empty, with `errNotConnected` when
`DbSessions.Get(sid)` is nil, and lets the request proceed otherwise. The
session registry is never changed. -/
theorem dbCheckMiddleware_decision (opts : ServerOptions) (allowedPaths : String → Bool)
    (getSessionId : Request → String) (DbClient : ClientPtr) (DbSessions : World)
    (req : Request) :
    (allowedPaths (req.Path.replace opts.Prefix "") = true →
      (dbCheckMiddleware opts allowedPaths getSessionId DbClient DbSessions req).1
        = .Next) ∧
    (allowedPaths (req.Path.replace opts.Prefix "") = false →
      (opts.Sessions = false →
        (DbClient = none →
          (dbCheckMiddleware opts allowedPaths getSessionId DbClient DbSessions req).1
            = .BadRequest .errNotConnected) ∧
        (DbClient ≠ none →
          (dbCheckMiddleware opts allowedPaths getSessionId DbClient DbSessions req).1
            = .Next)) ∧
      (opts.Sessions = true →
        (getSessionId req = "" →
          (dbCheckMiddleware opts allowedPaths getSessionId DbClient DbSessions req).1
            = .BadRequest .errSessionRequired) ∧
        (getSessionId req ≠ "" → Get DbSessions (getSessionId req) = none →
          (dbCheckMiddleware opts allowedPaths getSessionId DbClient DbSessions req).1
            = .BadRequest .errNotConnected) ∧
        (getSessionId req ≠ "" → Get DbSessions (getSessionId req) ≠ none →
          (dbCheckMiddleware opts allowedPaths getSessionId DbClient DbSessions req).1
            = .Next))) ∧
    (dbCheckMiddleware opts allowedPaths getSessionId DbClient DbSessions req).2
      = DbSessions := by
  refine ⟨?_, ?_, ?_⟩
  · intro ha
    simp [dbCheckMiddleware, ha]
  · intro ha
    refine ⟨?_, ?_⟩
    · intro hs
      refine ⟨?_, ?_⟩
      · intro hc
        simp [dbCheckMiddleware, ha, hs, hc]
      · intro hc
        simp [dbCheckMiddleware, ha, hs, hc]
    · intro hs
      refine ⟨?_, ?_, ?_⟩
      · intro hsid
        simp [dbCheckMiddleware, ha, hs, hsid]
      · intro hsid hg
        simp [dbCheckMiddleware, ha, hs, hsid, hg]
      · intro hsid hg
        simp [dbCheckMiddleware, ha, hs, hsid, hg]
  · unfold dbCheckMiddleware
    dsimp only
    split_ifs <;> rfl

/-- Witness of C13: multi-session mode, the request on "/api/query" carries the
session id "s1"; it is rejected with `errNotConnected` while the registry has
no such session and proceeds once the session is registered. -/
theorem dbCheckMiddleware_decision_witness :
    (dbCheckMiddleware ⟨"", true⟩ (fun p => p == "/api/info") (fun _ => "s1") none
        initWorld ⟨"/api/query", []⟩).1 = .BadRequest .errNotConnected ∧
    (dbCheckMiddleware ⟨"", true⟩ (fun p => p == "/api/info") (fun _ => "s1") none
        (Add initWorld "s1" (some 1)) ⟨"/api/query", []⟩).1 = .Next :=
  ⟨((dbCheckMiddleware_decision ⟨"", true⟩ (fun p => p == "/api/info") (fun _ => "s1") none
        initWorld ⟨"/api/query", []⟩).2.1 (by decide)).2 rfl |>.2.1 (by decide) (by decide),
   ((dbCheckMiddleware_decision ⟨"", true⟩ (fun p => p == "/api/info") (fun _ => "s1") none
        (Add initWorld "s1" (some 1)) ⟨"/api/query", []⟩).2.1 (by decide)).2 rfl
      |>.2.2 (by decide) (by decide)⟩

/-! ## Lemmas on the heap -/

theorem set_of_getElem? {l : List Obj} {i : Nat} {o : Obj} (h : l[i]? = some o) :
    l.set i o = l := by
  induction l generalizing i with
  | nil => rfl
  | cons x t ih =>
      cases i with
      | zero =>
          simp only [List.getElem?_cons_zero, Option.some.injEq] at h
          simp [h]
      | succ j =>
          simp only [List.getElem?_cons_succ] at h
          simp [ih h]

theorem mapInsertFold_eq (r : Nat) (l : List (Sigma fun _ : String => ClientPtr)) :
    ∀ (mem : Mem) (acc : SessionMap), mem.heap[r]? = some (.map acc) →
      l.foldl (fun m e => m.mapInsert r e.1 e.2) mem
        = { mem with
            heap := mem.heap.set r
              (.map (l.foldl (fun sessions e => sessions.insert e.1 e.2) acc)) } := by
  induction l with
  | nil =>
      intro mem acc h
      simp [set_of_getElem? h]
  | cons e t ih =>
      intro mem acc h
      have hlt : r < mem.heap.length := (List.getElem?_eq_some.1 h).1
      have hstep : mem.mapInsert r e.1 e.2
          = { mem with heap := mem.heap.set r (.map (acc.insert e.1 e.2)) } := by
        simp [Mem.mapInsert, h]
      rw [List.foldl_cons, List.foldl_cons, hstep,
        ih _ (acc.insert e.1 e.2) (by simp [hlt])]
      simp [List.set_set]

theorem Mem_Sessions_eq (mem : Mem) :
    Mem.Sessions mem
      = (mem.heap.length,
          { mem with heap := mem.heap ++ [.map (Sessions mem.world)] }) := by
  unfold Mem.Sessions
  simp only [Mem.alloc]
  rw [mapInsertFold_eq mem.heap.length mem.registry.entries _ ∅ (by simp)]
  simp [Sessions, Mem.world]

theorem heap_exec (mem : Mem) (c : Call) (r : Nat) (o : Obj)
    (hne : r ≠ mem.sessions) (h : mem.heap[r]? = some o) :
    (mem.exec c).heap[r]? = some o ∧ (mem.exec c).sessions = mem.sessions := by
  have hlt : r < mem.heap.length := (List.getElem?_eq_some.1 h).1
  have hne' : mem.sessions ≠ r := fun e => hne e.symm
  cases c with
  | IDs => simp [Mem.exec, Mem.IDs, Mem.alloc, List.getElem?_append_left hlt, h]
  | Sessions => simp [Mem.exec, Mem_Sessions_eq, List.getElem?_append_left hlt, h]
  | Get _ => exact ⟨h, rfl⟩
  | Len => exact ⟨h, rfl⟩
  | Add id conn => simp [Mem.exec, Mem.write, List.getElem?_set_ne hne', h]
  | Remove id => simp [Mem.exec, Mem.write, List.getElem?_set_ne hne', h]
  | Cleanup now lqt => simp [Mem.exec, Mem.write, List.getElem?_set_ne hne', h]

theorem heap_run (calls : List Call) (r : Nat) (o : Obj) :
    ∀ mem : Mem, r ≠ mem.sessions → mem.heap[r]? = some o →
      (mem.run calls).heap[r]? = some o := by
  induction calls with
  | nil => intro mem _ h; exact h
  | cons c cs ih =>
      intro mem hne h
      have hstep := heap_exec mem c r o hne h
      exact ih (mem.exec c) (by rw [hstep.2]; exact hne) hstep.1

theorem world_alloc (mem : Mem) (o : Obj) (hv : mem.sessions < mem.heap.length) :
    (mem.alloc o).2.world = mem.world := by
  simp [Mem.alloc, Mem.world, Mem.registry, List.getElem?_append_left hv]

theorem world_write (mem : Mem) (w : World) (hv : mem.sessions < mem.heap.length) :
    (mem.write w).world = w := by
  simp [Mem.write, Mem.world, Mem.registry, hv]

theorem world_exec (mem : Mem) (c : Call) (hv : mem.sessions < mem.heap.length) :
    (mem.exec c).world = c.exec mem.world ∧
    (mem.exec c).sessions < (mem.exec c).heap.length := by
  cases c with
  | IDs =>
      refine ⟨world_alloc mem _ hv, ?_⟩
      simp only [Mem.exec, Mem.IDs, Mem.alloc, List.length_append, List.length_singleton]
      omega
  | Sessions =>
      have h := world_alloc mem (.map (Sessions mem.world)) hv
      simp only [Mem.exec, Mem_Sessions_eq, Call.exec]
      simp only [Mem.alloc] at h
      refine ⟨h, ?_⟩
      simp only [List.length_append, List.length_singleton]
      omega
  | Get _ => exact ⟨rfl, hv⟩
  | Len => exact ⟨rfl, hv⟩
  | Add id conn =>
      exact ⟨world_write mem _ hv, by simp [Mem.exec, Mem.write, hv]⟩
  | Remove id =>
      exact ⟨world_write mem _ hv, by simp [Mem.exec, Mem.write, hv]⟩
  | Cleanup now lqt =>
      exact ⟨world_write mem _ hv, by simp [Mem.exec, Mem.write, hv]⟩

theorem world_run (calls : List Call) :
    ∀ mem : Mem, mem.sessions < mem.heap.length →
      (mem.run calls).world = runCalls mem.world calls := by
  induction calls with
  | nil => intro mem _; rfl
  | cons c cs ih =>
      intro mem hv
      have hstep := world_exec mem c hv
      have h := ih (mem.exec c) hstep.2
      rw [hstep.1] at h
      exact h

/-- C14: `IDs()` returns a list without duplicates whose elements are exactly
the keys of the sessions map, so its length is `Len()`; `Sessions()` returns a
map with the same keys and the same handle under each key (and so of the same
size). With the map of the registry held by reference: the slice returned by
`IDs()` and the map returned by `Sessions()` are objects at an address other
than that of the registry's map, the two calls leave the registry as it is, and
whatever calls are made on the registry afterwards, `Add` and `Remove` among
them (which act on the registry as in the model without references), the
returned slice and the returned map stay what they were when returned. -/
theorem snapshots_of_registry :
    (∀ w : World,
      (IDs w).Nodup ∧
      (∀ id : String, id ∈ IDs w ↔ lookup w id ≠ none) ∧
      (IDs w).length = Len w ∧
      (∀ id : String, (Sessions w).lookup id = lookup w id) ∧
      (Sessions w).entries.length = Len w) ∧
    (∀ mem : Mem, mem.sessions < mem.heap.length →
      (Mem.IDs mem).1 ≠ mem.sessions ∧
      (Mem.Sessions mem).1 ≠ mem.sessions ∧
      (Mem.IDs mem).2.world = mem.world ∧
      (Mem.Sessions mem).2.world = mem.world ∧
      (∀ calls : List Call,
        ((Mem.IDs mem).2.run calls).heap[(Mem.IDs mem).1]?
          = some (.slice (IDs mem.world)) ∧
        ((Mem.IDs mem).2.run calls).world = runCalls mem.world calls) ∧
      (∀ calls : List Call,
        ((Mem.Sessions mem).2.run calls).heap[(Mem.Sessions mem).1]?
          = some (.map (Sessions mem.world)) ∧
        ((Mem.Sessions mem).2.run calls).world = runCalls mem.world calls)) := by
  constructor
  · intro w
    refine ⟨?_, ?_, ?_, lookup_Sessions w, length_Sessions w⟩
    · rw [IDs_eq_keys]
      exact w.mgr.sessions.keys_nodup
    · intro id
      rw [IDs_eq_keys, ← AList.mem_keys, ← AList.lookup_isSome, lookup]
      cases w.mgr.sessions.lookup id <;> simp
    · rw [IDs_eq_keys, Len_eq_keys_length]
  · intro mem hv
    have hIw : (Mem.IDs mem).2.world = mem.world := world_alloc mem _ hv
    have hSw : (Mem.Sessions mem).2.world = mem.world := by
      rw [Mem_Sessions_eq]
      exact world_alloc mem (.map (Sessions mem.world)) hv
    have hIv : (Mem.IDs mem).2.sessions < (Mem.IDs mem).2.heap.length := by
      simp only [Mem.IDs, Mem.alloc, List.length_append, List.length_singleton]
      omega
    have hSv : (Mem.Sessions mem).2.sessions < (Mem.Sessions mem).2.heap.length := by
      rw [Mem_Sessions_eq]
      simp only [List.length_append, List.length_singleton]
      omega
    refine ⟨?_, ?_, hIw, hSw, ?_, ?_⟩
    · simp only [Mem.IDs, Mem.alloc]
      omega
    · rw [Mem_Sessions_eq]
      simp only
      omega
    · intro calls
      refine ⟨?_, ?_⟩
      · apply heap_run
        · simp only [Mem.IDs, Mem.alloc]
          omega
        · simp [Mem.IDs, Mem.alloc]
      · rw [world_run calls _ hIv, hIw]
    · intro calls
      refine ⟨?_, ?_⟩
      · apply heap_run
        · rw [Mem_Sessions_eq]
          simp only
          omega
        · rw [Mem_Sessions_eq]
          simp
      · rw [world_run calls _ hSv, hSw]

/-- Witness of C14: the registry holds only "a" when `IDs()` is called; after
`Add("b", 2)` and `Remove("a")` the returned slice is still the one with "a",
while the map of the registry, at its own address, now holds only "b". -/
theorem snapshots_of_registry_witness :
    ((Mem.IDs (NewMem.exec (Call.Add "a" (some 1)))).2.run
        [Call.Add "b" (some 2), Call.Remove "a"]).heap[
          (Mem.IDs (NewMem.exec (Call.Add "a" (some 1)))).1]?
      = some (.slice (IDs (NewMem.exec (Call.Add "a" (some 1))).world)) ∧
    IDs (NewMem.exec (Call.Add "a" (some 1))).world = ["a"] ∧
    IDs ((Mem.IDs (NewMem.exec (Call.Add "a" (some 1)))).2.run
        [Call.Add "b" (some 2), Call.Remove "a"]).world = ["b"] :=
  ⟨((snapshots_of_registry.2 (NewMem.exec (Call.Add "a" (some 1))) (by decide)).2.2.2.2.1
      [Call.Add "b" (some 2), Call.Remove "a"]).1,
   by decide, by decide⟩

end Pgweb
